import Mathlib

/-!
Shallow embedding of the data-alchemist repository core:
the schema validator (`src/utils/validators.ts`), the natural-language
instruction parser and change application (`NaturalLanguageEditor`),
the auto-fix application (`AutoFixPanel.tsx`), and the AI contract
gateway (`lib/ai.ts`, `lib/gemini.ts`).

JavaScript runtime values that occur in the checked code paths are
modelled by `Value` (strings, numbers as exact rationals, null,
undefined).  Fallible JS code (a thrown `TypeError`) is modelled with
`Except`.  JSON.parse / JSON.stringify are embedded by an executable
fuel-bounded JSON parser and printer.  The two regular expressions of
`parseEditInstruction` are embedded by a backtracking matcher over a
sequence of literal / character-class items that mirrors the
leftmost-greedy semantics of the JavaScript engine on these linear
patterns.
-/

namespace DataAlchemist

/-- A JavaScript runtime value as it occurs in the validated rows:
a string, a (finite) number modelled as an exact rational, `null`, or
`undefined`.  (NaN appears only as the result of `Number(...)` and is
modelled by `Option.none` in `toNumber`, never as a stored value.) -/
inductive Value where
  | str (s : String)
  | num (q : Rat)
  | null
  | undefined
deriving DecidableEq, Repr

/-- JS truthiness for the modelled values: empty string, `0`, `null`
and `undefined` are falsy. -/
def isTruthy : Value → Bool
  | .str s => s ≠ ""
  | .num q => q ≠ 0
  | .null => false
  | .undefined => false

/-- Decimal digits of the fractional part of a rational in `[0,1)`,
by repeated multiplication by 10; `fuel` bounds the number of digits
(the digit strings arising in this code base are finite decimals). -/
def fracDigits : Nat → Rat → String
  | 0, _ => ""
  | fuel + 1, r =>
    if r = 0 then ""
    else
      let r10 := r * 10
      let d := Rat.floor r10
      toString d.toNat ++ fracDigits fuel (r10 - (d : Rat))

/-- JS `String(number)` on the modelled (rational) numbers: integers
print without a decimal point, other values print their (finite)
decimal expansion. -/
def numToStr (q : Rat) : String :=
  if q.den = 1 then toString q.num
  else
    let sign := if q < 0 then "-" else ""
    let a : Rat := |q|
    let ip : Int := Rat.floor a
    sign ++ toString ip.toNat ++ "." ++ fracDigits 30 (a - (ip : Rat))

/-- JS `String(value)` for the modelled values. -/
def jsToString : Value → String
  | .str s => s
  | .num q => numToStr q
  | .null => "null"
  | .undefined => "undefined"

/-- Value of a decimal digit list. -/
def digitsToNat (ds : List Char) : Nat :=
  ds.foldl (fun n c => n * 10 + (c.toNat - 48)) 0

/-- JS `Number(string)` (ToNumber on strings), `none` modelling NaN:
trim whitespace, empty means 0, otherwise an optional sign, a decimal
mantissa with optional fraction, and an optional exponent.  (The rare
JS forms `Infinity` and radix prefixes are mapped to NaN; they do not
occur in the checked code paths.) -/
def jsStrToNum (s : String) : Option Rat :=
  let cs := s.trim.toList
  if cs.isEmpty then some 0
  else
    let (sgn, cs1) : Rat × List Char :=
      match cs with
      | '+' :: r => (1, r)
      | '-' :: r => (-1, r)
      | r => (1, r)
    let (ip, cs2) := cs1.span Char.isDigit
    let (fp, cs3) : Option (List Char) × List Char :=
      match cs2 with
      | '.' :: r => let (d, r2) := r.span Char.isDigit; (some d, r2)
      | r => (none, r)
    if ip.isEmpty && (match fp with | some d => d.isEmpty | none => true) then none
    else
      let mant : Rat :=
        (digitsToNat ip : Rat) +
          (match fp with
           | some d => (digitsToNat d : Rat) / ((10 : Rat) ^ d.length)
           | none => 0)
      match cs3 with
      | [] => some (sgn * mant)
      | e :: r =>
        if e = 'e' ∨ e = 'E' then
          let (esgn, r1) : Int × List Char :=
            match r with
            | '+' :: r2 => (1, r2)
            | '-' :: r2 => (-1, r2)
            | r2 => (1, r2)
          let (ed, r2) := r1.span Char.isDigit
          if ed.isEmpty || !r2.isEmpty then none
          else some (sgn * mant * (10 : Rat) ^ (esgn * (digitsToNat ed : Int)))
        else none

/-- JS `Number(value)` on the modelled values, `none` modelling NaN. -/
def toNumber : Value → Option Rat
  | .str s => jsStrToNum s
  | .num q => some q
  | .null => some 0
  | .undefined => none

/-- A row: an ordered mapping from column names to values, as produced
by the upload collaborator. -/
abbrev Row := List (String × Value)

/-- JS property read `row[f]`: a missing key yields `undefined`. -/
def getField (row : Row) (f : String) : Value :=
  match row.find? (fun p => p.1 = f) with
  | some p => p.2
  | none => .undefined

/-- JS property write `row[f] = v`: an existing key is updated in
place (keeping its position), a new key is appended. -/
def setField (row : Row) (f : String) (v : Value) : Row :=
  if row.any (fun p => p.1 = f) then
    row.map (fun p => if p.1 = f then (f, v) else p)
  else
    row ++ [(f, v)]

/-! ### JSON values, JSON.stringify and JSON.parse -/

/-- A parsed JSON value (the result of `JSON.parse`). -/
inductive Json where
  | null
  | bool (b : Bool)
  | num (q : Rat)
  | str (s : String)
  | arr (elems : List Json)
  | obj (fields : List (String × Json))
deriving Repr

/-- The opening-brace character, written by code point. -/
def lbrace : Char := Char.ofNat 123

/-- The closing-brace character, written by code point. -/
def rbrace : Char := Char.ofNat 125

/-- Two lowercase hex digits of a byte. -/
def hexByte (n : Nat) : String :=
  let dig := fun (k : Nat) => String.singleton (Char.ofNat (if k < 10 then 48 + k else 87 + k))
  dig (n / 16 % 16) ++ dig (n % 16)

/-- JSON string escaping as performed by `JSON.stringify`. -/
def jsonEscape (s : String) : String :=
  s.toList.foldl
    (fun acc c =>
      acc ++
        (if c = '"' then "\\\""
         else if c = '\\' then "\\\\"
         else if c = '\n' then "\\n"
         else if c = '\t' then "\\t"
         else if c = '\r' then "\\r"
         else if c = Char.ofNat 8 then "\\b"
         else if c = Char.ofNat 12 then "\\f"
         else if c.toNat < 32 then "\\u00" ++ hexByte c.toNat
         else String.singleton c))
    ""

mutual
/-- `JSON.stringify` (no indentation argument): compact separators,
object keys in insertion order. -/
def jstringify : Json → String
  | Json.null => "null"
  | Json.bool b => if b then "true" else "false"
  | Json.num q => numToStr q
  | Json.str s => "\"" ++ jsonEscape s ++ "\""
  | Json.arr xs => "[" ++ jstringifyElems xs ++ "]"
  | Json.obj kvs => "\x7b" ++ jstringifyMembers kvs ++ "\x7d"

/-- Array elements of `JSON.stringify`, comma separated. -/
def jstringifyElems : List Json → String
  | [] => ""
  | [x] => jstringify x
  | x :: y :: rest => jstringify x ++ "," ++ jstringifyElems (y :: rest)

/-- Object members of `JSON.stringify`, comma separated. -/
def jstringifyMembers : List (String × Json) → String
  | [] => ""
  | [(k, v)] => "\"" ++ jsonEscape k ++ "\":" ++ jstringify v
  | (k, v) :: kv2 :: rest =>
    "\"" ++ jsonEscape k ++ "\":" ++ jstringify v ++ "," ++ jstringifyMembers (kv2 :: rest)
end

/-- JSON insignificant whitespace. -/
def jsonWs (c : Char) : Bool :=
  c = ' ' || c = '\t' || c = '\n' || c = '\r'

/-- Drop leading JSON whitespace. -/
def skipWs (cs : List Char) : List Char :=
  cs.dropWhile jsonWs

/-- Insert a key/value pair as `JSON.parse` does for object members:
a repeated key overwrites the earlier value but keeps the position of
its first occurrence. -/
def insertKV (kvs : List (String × Json)) (k : String) (v : Json) :
    List (String × Json) :=
  if kvs.any (fun p => p.1 = k) then
    kvs.map (fun p => if p.1 = k then (k, v) else p)
  else
    kvs ++ [(k, v)]

/-- Hex digit value. -/
def hexVal (c : Char) : Option Nat :=
  if c.isDigit then some (c.toNat - 48)
  else if 'a' ≤ c ∧ c ≤ 'f' then some (c.toNat - 87)
  else if 'A' ≤ c ∧ c ≤ 'F' then some (c.toNat - 55)
  else none

/-- The characters of a JSON string literal after the opening quote,
with the strict JSON escape rules; returns the decoded characters and
the input after the closing quote. -/
def parseJStrChars : Nat → List Char → Option (List Char × List Char)
  | 0, _ => none
  | fuel + 1, cs =>
    match cs with
    | [] => none
    | c :: rest =>
      if c = '"' then some ([], rest)
      else if c = '\\' then
        match rest with
        | [] => none
        | e :: rest2 =>
          if e = '"' ∨ e = '\\' ∨ e = '/' then
            (parseJStrChars fuel rest2).map (fun p => (e :: p.1, p.2))
          else if e = 'b' then
            (parseJStrChars fuel rest2).map (fun p => (Char.ofNat 8 :: p.1, p.2))
          else if e = 'f' then
            (parseJStrChars fuel rest2).map (fun p => (Char.ofNat 12 :: p.1, p.2))
          else if e = 'n' then
            (parseJStrChars fuel rest2).map (fun p => ('\n' :: p.1, p.2))
          else if e = 'r' then
            (parseJStrChars fuel rest2).map (fun p => ('\r' :: p.1, p.2))
          else if e = 't' then
            (parseJStrChars fuel rest2).map (fun p => ('\t' :: p.1, p.2))
          else if e = 'u' then
            match rest2 with
            | h1 :: h2 :: h3 :: h4 :: rest3 =>
              match hexVal h1, hexVal h2, hexVal h3, hexVal h4 with
              | some a, some b, some c2, some d =>
                (parseJStrChars fuel rest3).map
                  (fun p => (Char.ofNat (((a * 16 + b) * 16 + c2) * 16 + d) :: p.1, p.2))
              | _, _, _, _ => none
            | _ => none
          else none
      else if c.toNat < 32 then none
      else (parseJStrChars fuel rest).map (fun p => (c :: p.1, p.2))

/-- A strict JSON number starting at the input head: `-?int frac? exp?`
with no leading zeros, returning its exact rational value. -/
def parseJNum (cs : List Char) : Option (Rat × List Char) :=
  let (sgn, cs1) : Rat × List Char :=
    match cs with
    | '-' :: r => (-1, r)
    | r => (1, r)
  let ipRes : Option (List Char × List Char) :=
    match cs1 with
    | '0' :: r =>
      match r with
      | d :: _ => if d.isDigit then none else some (['0'], r)
      | [] => some (['0'], [])
    | c :: _ =>
      if c.isDigit then some (cs1.span Char.isDigit) else none
    | [] => none
  match ipRes with
  | none => none
  | some (ip, cs2) =>
    let fpRes : Option (Option (List Char) × List Char) :=
      match cs2 with
      | '.' :: r =>
        let (d, r2) := r.span Char.isDigit
        if d.isEmpty then none else some (some d, r2)
      | r => some (none, r)
    match fpRes with
    | none => none
    | some (fp, cs3) =>
      let mant : Rat :=
        (digitsToNat ip : Rat) +
          (match fp with
           | some d => (digitsToNat d : Rat) / ((10 : Rat) ^ d.length)
           | none => 0)
      match cs3 with
      | e :: r =>
        if e = 'e' ∨ e = 'E' then
          let (esgn, r1) : Int × List Char :=
            match r with
            | '+' :: r2 => (1, r2)
            | '-' :: r2 => (-1, r2)
            | r2 => (1, r2)
          let (ed, r2) := r1.span Char.isDigit
          if ed.isEmpty then none
          else some (sgn * mant * (10 : Rat) ^ (esgn * (digitsToNat ed : Int)), r2)
        else some (sgn * mant, cs3)
      | [] => some (sgn * mant, [])

mutual
/-- One JSON value starting at the input head (after caller-side
whitespace skipping); fuel bounds the recursion depth. -/
def parseJValue : Nat → List Char → Option (Json × List Char)
  | 0, _ => none
  | fuel + 1, cs =>
    match skipWs cs with
    | [] => none
    | c :: rest =>
      if c = lbrace then
        match skipWs rest with
        | c2 :: rest2 =>
          if c2 = rbrace then some (Json.obj [], rest2)
          else parseJMembers fuel (c2 :: rest2) []
        | [] => none
      else if c = '[' then
        match skipWs rest with
        | ']' :: rest2 => some (Json.arr [], rest2)
        | cs2 => parseJElems fuel cs2 []
      else if c = '"' then
        (parseJStrChars (rest.length + 1) rest).map
          (fun p => (Json.str (String.mk p.1), p.2))
      else if c = 't' then
        match rest with
        | 'r' :: 'u' :: 'e' :: rest2 => some (Json.bool true, rest2)
        | _ => none
      else if c = 'f' then
        match rest with
        | 'a' :: 'l' :: 's' :: 'e' :: rest2 => some (Json.bool false, rest2)
        | _ => none
      else if c = 'n' then
        match rest with
        | 'u' :: 'l' :: 'l' :: rest2 => some (Json.null, rest2)
        | _ => none
      else if c = '-' ∨ c.isDigit then
        (parseJNum (c :: rest)).map (fun p => (Json.num p.1, p.2))
      else none

/-- Object members after the opening brace (first member expected). -/
def parseJMembers : Nat → List Char → List (String × Json) →
    Option (Json × List Char)
  | 0, _, _ => none
  | fuel + 1, cs, acc =>
    match skipWs cs with
    | '"' :: rest =>
      match parseJStrChars (rest.length + 1) rest with
      | none => none
      | some (kChars, rest2) =>
        match skipWs rest2 with
        | ':' :: rest3 =>
          match parseJValue fuel rest3 with
          | none => none
          | some (v, rest4) =>
            let acc2 := insertKV acc (String.mk kChars) v
            match skipWs rest4 with
            | ',' :: rest5 => parseJMembers fuel rest5 acc2
            | c :: rest5 =>
              if c = rbrace then some (Json.obj acc2, rest5) else none
            | [] => none
        | _ => none
    | _ => none

/-- Array elements after the opening bracket (first element expected). -/
def parseJElems : Nat → List Char → List Json → Option (Json × List Char)
  | 0, _, _ => none
  | fuel + 1, cs, acc =>
    match parseJValue fuel cs with
    | none => none
    | some (v, rest) =>
      match skipWs rest with
      | ',' :: rest2 => parseJElems fuel rest2 (acc ++ [v])
      | ']' :: rest2 => some (Json.arr (acc ++ [v]), rest2)
      | _ => none
end

/-- `JSON.parse`: parse one value and require only whitespace after it;
`none` models a thrown `SyntaxError`.  The fuel `2·length+8` exceeds
the recursion depth possible for the input. -/
def jsonParse (s : String) : Option Json :=
  match parseJValue (2 * s.length + 8) s.toList with
  | some (j, rest) => if (skipWs rest).isEmpty then some j else none
  | none => none

/-! ### Schema validator (`src/utils/validators.ts`) -/

/-- A thrown JS runtime error (here: calling `.split` on a value that
is not a string). -/
inductive JsError where
  | typeError
deriving DecidableEq, Repr

/-- `ValidationError` of `validators.ts`. -/
structure ValidationError where
  rowIndex : Nat
  field : String
  message : String
deriving DecidableEq, Repr

/-- `ValidationResult` of `validators.ts`. -/
structure ValidationResult where
  validated : Bool
  errors : List ValidationError
deriving DecidableEq, Repr

/-- `getIDField` of `validators.ts`. -/
def getIDField : String → String
  | "clients" => "ClientID"
  | "workers" => "WorkerID"
  | "tasks" => "TaskID"
  | _ => "ID"

/-- The presence test used by every entity-specific check:
`v !== undefined && v !== null && v !== ''` (strict comparisons, so a
number is never equal to the empty string). -/
def fieldPresent (v : Value) : Bool :=
  v ≠ Value.undefined && v ≠ Value.null && v ≠ Value.str ""

/-- The PriorityLevel check of `validateClient`: when present,
`Number(value)` must not be NaN and must lie in `[1, 5]` (the code
performs no integrality check). -/
def clientPriorityErrors (row : Row) (rowIndex : Nat) : List ValidationError :=
  if fieldPresent (getField row "PriorityLevel") then
    match toNumber (getField row "PriorityLevel") with
    | none =>
      [⟨rowIndex, "PriorityLevel", "PriorityLevel must be a number between 1 and 5"⟩]
    | some p =>
      if p < 1 ∨ p > 5 then
        [⟨rowIndex, "PriorityLevel", "PriorityLevel must be a number between 1 and 5"⟩]
      else []
  else []

/-- The RequestedTaskIDs check of `validateClient`.  The code calls
`value.split(',')` without a string-type guard, so a present non-string
value throws a `TypeError` (modelled by `Except.error`). -/
def clientRequestedErrors (row : Row) (rowIndex : Nat) :
    Except JsError (List ValidationError) :=
  if fieldPresent (getField row "RequestedTaskIDs") then
    match getField row "RequestedTaskIDs" with
    | .str s =>
      Except.ok
        (if ((s.splitOn ",").map String.trim).length = 0 ∨
            ((s.splitOn ",").map String.trim).any (fun id => id = "") then
          [⟨rowIndex, "RequestedTaskIDs",
            "RequestedTaskIDs must contain valid task IDs separated by commas"⟩]
        else [])
    | _ => Except.error JsError.typeError
  else Except.ok []

/-- The AttributesJSON check of `validateClient`: when present, the
value (coerced to a string by `JSON.parse`) must parse as JSON. -/
def clientAttributesErrors (row : Row) (rowIndex : Nat) : List ValidationError :=
  if fieldPresent (getField row "AttributesJSON") then
    if (jsonParse (jsToString (getField row "AttributesJSON"))).isSome then []
    else [⟨rowIndex, "AttributesJSON", "AttributesJSON must be valid JSON"⟩]
  else []

/-- `validateClient` of `validators.ts` (its three checks in source
order); the error channel models the `.split` TypeError. -/
def validateClient (row : Row) (rowIndex : Nat) :
    Except JsError (List ValidationError) :=
  match clientRequestedErrors row rowIndex with
  | Except.error err => Except.error err
  | Except.ok e2 =>
    Except.ok (clientPriorityErrors row rowIndex ++ e2 ++
      clientAttributesErrors row rowIndex)

/-- The AvailableSlots check of `validateWorker`: when present, the
value must parse as JSON and the parsed value must be an array. -/
def workerSlotsErrors (row : Row) (rowIndex : Nat) : List ValidationError :=
  if fieldPresent (getField row "AvailableSlots") then
    match jsonParse (jsToString (getField row "AvailableSlots")) with
    | some (Json.arr _) => []
    | some _ =>
      [⟨rowIndex, "AvailableSlots", "AvailableSlots must be a valid JSON array"⟩]
    | none =>
      [⟨rowIndex, "AvailableSlots", "AvailableSlots must be valid JSON"⟩]
  else []

/-- The MaxLoadPerPhase check of `validateWorker`. -/
def workerLoadErrors (row : Row) (rowIndex : Nat) : List ValidationError :=
  if fieldPresent (getField row "MaxLoadPerPhase") then
    match toNumber (getField row "MaxLoadPerPhase") with
    | none => [⟨rowIndex, "MaxLoadPerPhase", "MaxLoadPerPhase must be a positive number"⟩]
    | some m =>
      if m < 1 then
        [⟨rowIndex, "MaxLoadPerPhase", "MaxLoadPerPhase must be a positive number"⟩]
      else []
  else []

/-- The QualificationLevel check of `validateWorker`. -/
def workerQualErrors (row : Row) (rowIndex : Nat) : List ValidationError :=
  if fieldPresent (getField row "QualificationLevel") then
    match toNumber (getField row "QualificationLevel") with
    | none =>
      [⟨rowIndex, "QualificationLevel", "QualificationLevel must be a number between 1 and 5"⟩]
    | some q =>
      if q < 1 ∨ q > 5 then
        [⟨rowIndex, "QualificationLevel", "QualificationLevel must be a number between 1 and 5"⟩]
      else []
  else []

/-- `validateWorker` of `validators.ts`: its three checks in source
order. -/
def validateWorker (row : Row) (rowIndex : Nat) : List ValidationError :=
  workerSlotsErrors row rowIndex ++ workerLoadErrors row rowIndex ++
    workerQualErrors row rowIndex

/-- The test of the regex `^\d+\s*-\s*\d+$` of `validateTask` (a
deterministic pattern, implemented directly: digits, optional
whitespace, a dash, optional whitespace, digits). -/
def phasePatternTest (s : String) : Bool :=
  let cs := s.toList
  let (d1, r1) := cs.span Char.isDigit
  let r2 := r1.dropWhile (fun c => c = ' ' || c = '\t' || c = '\n' || c = '\r' ||
    c = Char.ofNat 11 || c = Char.ofNat 12)
  match r2 with
  | '-' :: r3 =>
    let r4 := r3.dropWhile (fun c => c = ' ' || c = '\t' || c = '\n' || c = '\r' ||
      c = Char.ofNat 11 || c = Char.ofNat 12)
    let (d2, r5) := r4.span Char.isDigit
    !d1.isEmpty && !d2.isEmpty && r5.isEmpty
  | _ => false

/-- The Duration check of `validateTask`: when present, the value must
be numeric and at least 1. -/
def taskDurationErrors (row : Row) (rowIndex : Nat) : List ValidationError :=
  if fieldPresent (getField row "Duration") then
    match toNumber (getField row "Duration") with
    | none =>
      [⟨rowIndex, "Duration", "Duration must be a number greater than or equal to 1"⟩]
    | some d =>
      if d < 1 then
        [⟨rowIndex, "Duration", "Duration must be a number greater than or equal to 1"⟩]
      else []
  else []

/-- The MaxConcurrent check of `validateTask`. -/
def taskConcurrentErrors (row : Row) (rowIndex : Nat) : List ValidationError :=
  if fieldPresent (getField row "MaxConcurrent") then
    match toNumber (getField row "MaxConcurrent") with
    | none => [⟨rowIndex, "MaxConcurrent", "MaxConcurrent must be a positive number"⟩]
    | some m =>
      if m < 1 then
        [⟨rowIndex, "MaxConcurrent", "MaxConcurrent must be a positive number"⟩]
      else []
  else []

/-- The PreferredPhases check of `validateTask`. -/
def taskPhasesErrors (row : Row) (rowIndex : Nat) : List ValidationError :=
  if fieldPresent (getField row "PreferredPhases") then
    if phasePatternTest (jsToString (getField row "PreferredPhases")) then []
    else
      [⟨rowIndex, "PreferredPhases",
        "PreferredPhases must be in format \"start - end\" (e.g., \"1 - 2\")"⟩]
  else []

/-- `validateTask` of `validators.ts`: its three checks in source
order. -/
def validateTask (row : Row) (rowIndex : Nat) : List ValidationError :=
  taskDurationErrors row rowIndex ++ taskConcurrentErrors row rowIndex ++
    taskPhasesErrors row rowIndex

/-- The entity-specific switch of `validateData`. -/
def entityErrors (entityType : String) (row : Row) (rowIndex : Nat) :
    Except JsError (List ValidationError) :=
  match entityType with
  | "clients" => validateClient row rowIndex
  | "workers" => Except.ok (validateWorker row rowIndex)
  | "tasks" => Except.ok (validateTask row rowIndex)
  | _ => Except.ok []

/-- The identifier check of `validateData` for one row: a falsy or
empty identifier yields a missing error; otherwise a value already in
the seen set yields a duplicate error, and a fresh value is added to
the seen set. -/
def idCheckStep (idField : String) (seen : List Value) (row : Row)
    (rowIndex : Nat) : List ValidationError × List Value :=
  if !isTruthy (getField row idField) || (getField row idField == Value.str "") then
    ([⟨rowIndex, idField, "Missing " ++ idField⟩], seen)
  else if getField row idField ∈ seen then
    ([⟨rowIndex, idField,
      "Duplicate " ++ idField ++ ": " ++ jsToString (getField row idField)⟩], seen)
  else
    ([], getField row idField :: seen)

/-- The per-row loop of `validateData`: for each row, the identifier
check followed by the entity-specific checks, threading the seen set;
a thrown entity check aborts the whole run. -/
def validateDataAux (entityType : String) :
    List Row → Nat → List Value → Except JsError (List ValidationError)
  | [], _, _ => Except.ok []
  | row :: rest, i, seen =>
    match idCheckStep (getIDField entityType) seen row i with
    | (idErrs, seen2) =>
      match entityErrors entityType row i with
      | Except.error err => Except.error err
      | Except.ok ent =>
        match validateDataAux entityType rest (i + 1) seen2 with
        | Except.error err => Except.error err
        | Except.ok tail => Except.ok (idErrs ++ ent ++ tail)

/-- `validateData` of `validators.ts`: empty data returns
`validated = true` with no errors; otherwise the per-row loop runs and
`validated` is the emptiness of the error list. -/
def validateData (entityType : String) (data : List Row) :
    Except JsError ValidationResult :=
  if data.length = 0 then Except.ok ⟨true, []⟩
  else
    match validateDataAux entityType data 0 [] with
    | Except.error err => Except.error err
    | Except.ok errs => Except.ok ⟨errs.length = 0, errs⟩

/-- `validateData` including the `!data` guard for an absent (null /
undefined) dataset, which also returns `validated = true`. -/
def validateDataOpt (entityType : String) (data : Option (List Row)) :
    Except JsError ValidationResult :=
  match data with
  | none => Except.ok ⟨true, []⟩
  | some d => validateData entityType d

/-! ### Instruction parser (`parseEditInstruction`) and change
application (`handleApplyChanges`, `AutoFixPanel`) -/

/-- `EditChange` of the natural-language editor. -/
structure EditChange where
  rowIndex : Int
  field : String
  oldValue : Value
  newValue : Value
deriving DecidableEq, Repr

/-- JS `\w`: ASCII letters, digits and underscore. -/
def wordChar (c : Char) : Bool :=
  c.isAlphanum || c = '_'

/-- JS `\s` (the ASCII part; the Unicode space characters do not occur
in the checked inputs). -/
def jsSpace (c : Char) : Bool :=
  c = ' ' || c = '\t' || c = '\n' || c = '\r' || c = Char.ofNat 11 || c = Char.ofNat 12

/-- JS `[^\s]`. -/
def nonSpace (c : Char) : Bool :=
  !jsSpace c

/-- One item of the two anchored linear regular expressions of
`parseEditInstruction`: a case-insensitive literal (the `i` flag), or
a greedy character-class repetition — one-or-more when
`allowEmpty = false` (`+`), zero-or-more when `allowEmpty = true`
(`*`) — optionally capturing. -/
inductive RItem where
  | lit (s : String)
  | cls (p : Char → Bool) (capture : Bool) (allowEmpty : Bool)

/-- Try candidate repetition lengths in order (longest first — the
greedy preference), returning the first overall success. -/
def tryLens (f : Nat → Option (List String)) : List Nat → Option (List String)
  | [] => none
  | k :: ks =>
    match f k with
    | some r => some r
    | none => tryLens f ks

/-- Backtracking matcher for an anchored (`^...$`) sequence of items,
returning the captured groups in order; repetitions are greedy with
backtracking, matching the leftmost-greedy JS semantics on these
patterns.  Fuel is one unit per item. -/
def matchSeq : Nat → List RItem → List Char → Option (List String)
  | _, [], cs => if cs.isEmpty then some [] else none
  | 0, _ :: _, _ => none
  | fuel + 1, RItem.lit s :: rest, cs =>
    let l := s.toList
    if (cs.take l.length).map Char.toLower = l.map Char.toLower then
      matchSeq fuel rest (cs.drop l.length)
    else none
  | fuel + 1, RItem.cls p cap allowEmpty :: rest, cs =>
    let run := (cs.takeWhile p).length
    let lens :=
      if allowEmpty then (List.range (run + 1)).reverse
      else ((List.range run).reverse).map (fun k => k + 1)
    tryLens
      (fun k =>
        (matchSeq fuel rest (cs.drop k)).map
          (fun caps => if cap then (cs.take k).asString :: caps else caps))
      lens

/-- The conditional pattern
`^set\s+(\w+)\s*=\s*([^\s]+)\s+where\s+(\w+)\s*=\s*([^\s]+)$/i`. -/
def condPattern : List RItem :=
  [RItem.lit "set", RItem.cls jsSpace false false,
   RItem.cls wordChar true false, RItem.cls jsSpace false true,
   RItem.lit "=", RItem.cls jsSpace false true,
   RItem.cls nonSpace true false, RItem.cls jsSpace false false,
   RItem.lit "where", RItem.cls jsSpace false false,
   RItem.cls wordChar true false, RItem.cls jsSpace false true,
   RItem.lit "=", RItem.cls jsSpace false true,
   RItem.cls nonSpace true false]

/-- The unconditional pattern `^set\s+(\w+)\s*=\s*([^\s]+)$/i`. -/
def allPattern : List RItem :=
  [RItem.lit "set", RItem.cls jsSpace false false,
   RItem.cls wordChar true false, RItem.cls jsSpace false true,
   RItem.lit "=", RItem.cls jsSpace false true,
   RItem.cls nonSpace true false]

/-- Anchored match of a pattern against a string. -/
def regexMatch (pat : List RItem) (s : String) : Option (List String) :=
  matchSeq (pat.length + 1) pat s.toList

/-- Whether a string trims to one that starts with `{` and ends with
`}` (the JSON-field heuristic of `parseEditInstruction`). -/
def bracesTrimmed (s : String) : Bool :=
  s.trim.toList.head? = some lbrace && s.trim.toList.getLast? = some rbrace

/-- The per-matched-row change construction of `parseEditInstruction`
(identical in both branches): a string value that trims to `{...}` and
parses as JSON gets every key overwritten with the replacement text and
is re-serialized; otherwise a string containing a comma gets the
replacement appended after a comma; otherwise the replacement text is
the new value. -/
def computeChange (row : Row) (i : Nat) (field newValue : String) : EditChange :=
  let old := getField row field
  match old with
  | .str s =>
    if bracesTrimmed s then
      match jsonParse s with
      | some (Json.obj kvs) =>
        ⟨(i : Int), field, old,
          .str (jstringify (Json.obj (kvs.map (fun kv => (kv.1, Json.str newValue)))))⟩
      | _ =>
        if s.contains ',' then ⟨(i : Int), field, old, .str (s ++ "," ++ newValue)⟩
        else ⟨(i : Int), field, old, .str newValue⟩
    else if s.contains ',' then ⟨(i : Int), field, old, .str (s ++ "," ++ newValue)⟩
    else ⟨(i : Int), field, old, .str newValue⟩
  | _ => ⟨(i : Int), field, old, .str newValue⟩

/-- `parseEditInstruction` of the natural-language editor: the
conditional pattern first (keeping the rows whose where-field value,
stringified and lowercased, equals the lowercased where-value), then
the unconditional pattern (all rows), otherwise the empty list. -/
def parseEditInstruction (instruction : String) (data : List Row) :
    List EditChange :=
  match regexMatch condPattern instruction with
  | some [field, newValue, whereField, whereValueRaw] =>
    let whereValue := whereValueRaw.toLower
    data.enum.filterMap
      (fun p =>
        if (jsToString (getField p.2 whereField)).toLower = whereValue then
          some (computeChange p.2 p.1 field newValue)
        else none)
  | some _ => []
  | none =>
    match regexMatch allPattern instruction with
    | some [field, newValue] =>
      data.enum.map (fun p => computeChange p.2 p.1 field newValue)
    | some _ => []
    | none => []

/-- One step of `handleApplyChanges`: `if (data[rowIndex])` — a
negative or out-of-range index reads `undefined` (falsy) and is
skipped; otherwise the row is updated at the field. -/
def applyChange (d : List Row) (c : EditChange) : List Row :=
  if 0 ≤ c.rowIndex then
    match d.get? c.rowIndex.toNat with
    | some row => d.set c.rowIndex.toNat (setField row c.field c.newValue)
    | none => d
  else d

/-- `handleApplyChanges`: the pending changes applied in insertion
order over a copy of the dataset. -/
def applyChanges (data : List Row) (changes : List EditChange) : List Row :=
  changes.foldl applyChange data

/-- `ValidationFix` of `AutoFixPanel.tsx`. -/
structure ValidationFix where
  rowIndex : Int
  field : String
  oldValue : Value
  newValue : Value
  reasoning : String
deriving DecidableEq, Repr

/-- One step of the fix-application loops of `AutoFixPanel.tsx`
(`if (updatedData[fix.rowIndex])`, same guard as `applyChange`). -/
def applyFix (d : List Row) (f : ValidationFix) : List Row :=
  if 0 ≤ f.rowIndex then
    match d.get? f.rowIndex.toNat with
    | some row => d.set f.rowIndex.toNat (setField row f.field f.newValue)
    | none => d
  else d

/-- `handleApplyAllFixes` of `AutoFixPanel.tsx`. -/
def applyAllFixes (data : List Row) (fixes : List ValidationFix) : List Row :=
  fixes.foldl applyFix data

/-- `handleApplySelectedFixes` of `AutoFixPanel.tsx`: the selected
indices (in iteration order) each look up their fix and apply it with
the in-range guard; an index with no fix reads `undefined` and the
`fix.rowIndex` access throws (modelled by `none`). -/
def applySelectedFixes (data : List Row) (fixes : List ValidationFix)
    (selected : List Nat) : Option (List Row) :=
  selected.foldlM (fun d idx => (fixes.get? idx).map (applyFix d)) data

/-! ### AI contract gateway (`lib/ai.ts`, `lib/gemini.ts`)

The HTTP transport is outside the shallow embedding; each gateway
operation is embedded as the pure function from the provider response
(the structured body for the extraction step, the extracted text for
the processing step) to its result or error. -/

/-- One element of `content.parts` of a Gemini response. -/
structure GeminiPart where
  text : Option String

/-- `content` of a Gemini candidate. -/
structure GeminiContent where
  parts : List GeminiPart

/-- One element of `candidates` of a Gemini response. -/
structure GeminiCandidate where
  content : Option GeminiContent

/-- The body of a Gemini response. -/
structure GeminiResponse where
  candidates : List GeminiCandidate

/-- The optional chain `data.candidates?.[0]?.content?.parts?.[0]?.text`
of `geminiChatCompletion`. -/
def geminiPathText (r : GeminiResponse) : Option String :=
  match r.candidates.head? with
  | none => none
  | some c =>
    match c.content with
    | none => none
    | some ct =>
      match ct.parts.head? with
      | none => none
      | some p => p.text

/-- The return value of `geminiChatCompletion`:
`...text || ''` — a missing path (and also an empty text) yields the
empty string. -/
def geminiExtractText (r : GeminiResponse) : String :=
  match geminiPathText r with
  | some t => t
  | none => ""

/-- `extractJsonBlock` character scan: the global replacement of
`/```json|```/` by the empty string, preferring the longer alternative
at each position as the JS engine does. -/
def stripFences : Nat → List Char → List Char
  | 0, _ => []
  | _, [] => []
  | fuel + 1, cs@(c :: rest) =>
    if ("```json".toList).isPrefixOf cs then
      stripFences fuel (cs.drop 7)
    else if ("```".toList).isPrefixOf cs then
      stripFences fuel (cs.drop 3)
    else
      c :: stripFences fuel rest

/-- `extractJsonBlock` of `lib/ai.ts`: strip code-fence markers, then
trim. -/
def extractJsonBlock (text : String) : String :=
  (String.mk (stripFences (text.length + 1) text.toList)).trim

/-- The backspace character U+0008. -/
def backspace : Char := Char.ofNat 8

/-- The lookbehind `(?<=row.)` that the template literal
`` `(?<=row\.)...` `` actually produces: in a JS template literal the
sequence backslash–dot is the single character `.`, so the regex
lookbehind is `row` followed by *any* non-line-terminator character.
`prev` holds the already-scanned characters in reverse order. -/
def lookbehindOk (prev : List Char) : Bool :=
  match prev with
  | c :: w :: o :: r :: _ =>
    r = 'r' && o = 'o' && w = 'w' &&
      !(c = '\n' || c = '\r' || c = Char.ofNat 0x2028 || c = Char.ofNat 0x2029)
  | _ => false

/-- The global replace of `mapFilterFunctionToOriginalColumns` for one
column.  The regex is built from the template literal
`` `(?<=row\.)${col.toLowerCase()}(?=\b)` ``; in a template literal
`\b` is the backspace escape (U+0008), so the constructed regex is
`(?<=row.)<lowercased column>(?=\u0008)` — the lookahead requires a
literal backspace character after the column name.  The scan visits
the original text left to right; at a match it emits the replacement
and continues after the matched (non-lookaround) characters.
(The lowercased column is matched literally, which is exact for the
metacharacter-free column names of the datasets.) -/
def scanReplace (lc rep : List Char) : Nat → List Char → List Char → List Char
  | 0, _, _ => []
  | _, _, [] => []
  | fuel + 1, prev, cs@(c :: rest) =>
    if !lc.isEmpty && lc.isPrefixOf cs && lookbehindOk prev &&
        (cs.drop lc.length).head? = some backspace then
      rep ++ scanReplace lc rep fuel (lc.reverse ++ prev) (cs.drop lc.length)
    else
      c :: scanReplace lc rep fuel (c :: prev) rest

/-- `mapFilterFunctionToOriginalColumns` of `lib/ai.ts`: one global
replace per known column over the generated filter-function source. -/
def mapFilterFunctionToOriginalColumns (filterFunction : String)
    (columns : List String) : String :=
  columns.foldl
    (fun mapped col =>
      String.mk
        (scanReplace col.toLower.toList col.toList (mapped.length + 1) []
          mapped.toList))
    filterFunction

/-- Field read on a parsed JSON value (`parsed.filterFunction`): only
an object can supply the property; on any other parsed value the read
yields `undefined` (or throws on `null`), which the caller turns into
the same failure. -/
def jGetField (j : Json) (k : String) : Option Json :=
  match j with
  | Json.obj kvs =>
    match kvs.find? (fun p => p.1 = k) with
    | some p => some p.2
    | none => none
  | _ => none

/-- Field write on a parsed JSON object value
(`parsed.filterFunction = ...`). -/
def jSetField (j : Json) (k : String) (v : Json) : Json :=
  match j with
  | Json.obj kvs => Json.obj (insertKV kvs k v)
  | other => other

/-- The response-processing of `generateFilter`: an empty response is
"no response" and fails; the cleaned text must parse as JSON with a
non-empty string `filterFunction`, which is then mapped back to the
original column names.  Every failure surfaces as the single outer
error message. -/
def generateFilterFromResponse (response : String) (columns : List String) :
    Except String Json :=
  if response = "" then Except.error "Unable to parse query."
  else
    match jsonParse (extractJsonBlock response) with
    | none => Except.error "Unable to parse query."
    | some parsed =>
      match jGetField parsed "filterFunction" with
      | some (Json.str f) =>
        if f = "" then Except.error "Unable to parse query."
        else
          Except.ok
            (jSetField parsed "filterFunction"
              (Json.str (mapFilterFunctionToOriginalColumns f columns)))
      | _ => Except.error "Unable to parse query."

/-- The response-processing of `generateEdit`: empty response or JSON
parse failure fails with the outer message; otherwise the parsed JSON
is returned unchecked. -/
def generateEditFromResponse (response : String) : Except String Json :=
  if response = "" then Except.error "Failed to generate edit"
  else
    match jsonParse (extractJsonBlock response) with
    | some parsed => Except.ok parsed
    | none => Except.error "Failed to generate edit"

/-- The response-processing of `generateRuleSuggestions`. -/
def generateRuleSuggestionsFromResponse (response : String) :
    Except String Json :=
  if response = "" then Except.error "Failed to generate rule suggestions"
  else
    match jsonParse (extractJsonBlock response) with
    | some parsed => Except.ok parsed
    | none => Except.error "Failed to generate rule suggestions"

/-- The response-processing of `generateValidationFixes`. -/
def generateValidationFixesFromResponse (response : String) :
    Except String Json :=
  if response = "" then Except.error "Failed to generate validation fixes"
  else
    match jsonParse (extractJsonBlock response) with
    | some parsed => Except.ok parsed
    | none => Except.error "Failed to generate validation fixes"

/-- The response-processing of `generateAIValidationWarnings`. -/
def generateAIValidationWarningsFromResponse (response : String) :
    Except String Json :=
  if response = "" then Except.error "Failed to generate AI validation warnings"
  else
    match jsonParse (extractJsonBlock response) with
    | some parsed => Except.ok parsed
    | none => Except.error "Failed to generate AI validation warnings"

/-! ### Derived notions used by the verified properties -/

/-- The number of validation errors attributed to row `i` and field
`fld`. -/
def countFieldErrors (errs : List ValidationError) (i : Nat) (fld : String) : Nat :=
  (errs.filter (fun e => e.rowIndex == i && e.field == fld)).length

/-- The last change of a batch targeting row `i` and field `f`, if
any (insertion order; `newValue` of the final write). -/
def lastTargeting (changes : List EditChange) (i : Int) (f : String) : Option Value :=
  ((changes.filter (fun c => c.rowIndex == i && c.field == f)).getLast?).map
    (fun c => c.newValue)

/-- The condition under which the PriorityLevel check of
`validateClient` fires on a present value: `Number(value)` is NaN or
lies outside `[1, 5]`. -/
def priorityOutOfRange (v : Value) : Bool :=
  match toNumber v with
  | none => true
  | some q => decide (q < 1) || decide (q > 5)

/-- Modelled from the spec words "numeric, integer range [1,5]": the
value is numeric and its numeric value is an integer between 1 and 5.
Stated for comparison with the code, which checks no integrality. -/
def specPriorityNumericIntegerIn1To5 (v : Value) : Prop :=
  ∃ q, toNumber v = some q ∧ q.den = 1 ∧ 1 ≤ q ∧ q ≤ 5

/-- Whether a value is a string. -/
def valueIsString : Value → Bool
  | .str _ => true
  | _ => false

/-- A row whose `RequestedTaskIDs` value is a string whenever the
presence test of `validateClient` holds for it (the condition under
which the `.split` call cannot throw). -/
def stringWhenPresentRTI (row : Row) : Bool :=
  valueIsString (getField row "RequestedTaskIDs") ||
    !fieldPresent (getField row "RequestedTaskIDs")

/-! ### Helper lemmas: field access and error counting -/

theorem find?_map_keyset (f : String) (v : Value) (row : Row)
    (h : row.any (fun p => p.1 = f) = true) :
    (row.map (fun p => if p.1 = f then (f, v) else p)).find? (fun p => p.1 = f) =
      some (f, v) := by
  induction row with
  | nil => simp at h
  | cons hd tl ih =>
    by_cases h1 : hd.1 = f
    · simp only [List.map_cons, if_pos h1]
      exact List.find?_cons_of_pos _ (by simp)
    · simp only [List.any_cons, Bool.or_eq_true, decide_eq_true_eq] at h
      have h2 := h.resolve_left h1
      simp only [List.map_cons, if_neg h1]
      rw [List.find?_cons_of_neg _ (by simpa using h1)]
      exact ih h2

theorem find?_map_keyset_ne (f f' : String) (v : Value) (row : Row)
    (h : f' ≠ f) :
    (row.map (fun p => if p.1 = f then (f, v) else p)).find? (fun p => p.1 = f') =
      row.find? (fun p => p.1 = f') := by
  induction row with
  | nil => rfl
  | cons hd tl ih =>
    by_cases h1 : hd.1 = f
    · have hne : ¬(f = f') := fun hc => h hc.symm
      simp only [List.map_cons, if_pos h1]
      rw [List.find?_cons_of_neg _ (by simpa using hne),
        List.find?_cons_of_neg _ (by simp only [decide_eq_true_eq, h1]; exact hne), ih]
    · simp only [List.map_cons, if_neg h1]
      by_cases h2 : hd.1 = f'
      · rw [List.find?_cons_of_pos _ (by simpa using h2),
          List.find?_cons_of_pos _ (by simpa using h2)]
      · rw [List.find?_cons_of_neg _ (by simpa using h2),
          List.find?_cons_of_neg _ (by simpa using h2), ih]

theorem getField_setField_self (row : Row) (f : String) (v : Value) :
    getField (setField row f v) f = v := by
  unfold getField setField
  by_cases h : row.any (fun p => p.1 = f) = true
  · rw [if_pos h, find?_map_keyset f v row h]
  · rw [if_neg h]
    have hnone : row.find? (fun p => p.1 = f) = none := by
      rw [List.find?_eq_none]
      intro p hp
      simp only [decide_eq_true_eq]
      intro hpf
      exact h (List.any_eq_true.mpr ⟨p, hp, by simp [hpf]⟩)
    simp [List.find?_append, hnone, List.find?]

theorem getField_setField_ne (row : Row) (f f' : String) (v : Value)
    (h : f' ≠ f) :
    getField (setField row f v) f' = getField row f' := by
  unfold getField setField
  by_cases hany : row.any (fun p => p.1 = f) = true
  · rw [if_pos hany, find?_map_keyset_ne f f' v row h]
  · rw [if_neg hany]
    have hne : ¬(f = f') := fun hc => h hc.symm
    simp [List.find?_append, List.find?, hne]

theorem countFieldErrors_append (a b : List ValidationError) (i : Nat) (fld : String) :
    countFieldErrors (a ++ b) i fld = countFieldErrors a i fld + countFieldErrors b i fld := by
  simp [countFieldErrors]

theorem countFieldErrors_eq_zero (errs : List ValidationError) (i : Nat) (fld : String)
    (h : ∀ e ∈ errs, e.rowIndex ≠ i ∨ e.field ≠ fld) :
    countFieldErrors errs i fld = 0 := by
  unfold countFieldErrors
  rw [List.length_eq_zero, List.filter_eq_nil_iff]
  intro e he
  rcases h e he with h1 | h1 <;> simp [h1]

theorem countFieldErrors_singleton (i : Nat) (fld : String) (msg : String) :
    countFieldErrors [⟨i, fld, msg⟩] i fld = 1 := by
  simp [countFieldErrors]

/-! ### Helper lemmas: change and fix application -/

theorem applyChange_length (d : List Row) (c : EditChange) :
    (applyChange d c).length = d.length := by
  unfold applyChange
  split
  · cases h : d.get? c.rowIndex.toNat <;> simp [h]
  · rfl

theorem applyChanges_length (changes : List EditChange) :
    ∀ d : List Row, (applyChanges d changes).length = d.length := by
  induction changes with
  | nil => intro d; rfl
  | cons c cs ih =>
    intro d
    show (applyChanges (applyChange d c) cs).length = d.length
    rw [ih, applyChange_length]

theorem applyFix_length (d : List Row) (fx : ValidationFix) :
    (applyFix d fx).length = d.length := by
  unfold applyFix
  split
  · cases h : d.get? fx.rowIndex.toNat <;> simp [h]
  · rfl

theorem applyChange_get?_ne (d : List Row) (c : EditChange) (i : Nat)
    (h : c.rowIndex ≠ (i : Int)) :
    (applyChange d c).get? i = d.get? i := by
  unfold applyChange
  split
  · cases hr : d.get? c.rowIndex.toNat with
    | none => rfl
    | some row => exact List.get?_set_ne _ _ (by omega)
  · rfl

theorem applyChange_get?_targets (d : List Row) (c : EditChange) (i : Nat)
    (hc : c.rowIndex = (i : Int)) (hi : i < d.length) :
    (applyChange d c).get? i =
      some (setField ((d.get? i).getD []) c.field c.newValue) := by
  have h0 : 0 ≤ c.rowIndex := by omega
  have ht : c.rowIndex.toNat = i := by omega
  unfold applyChange
  rw [if_pos h0, ht]
  cases hr : d.get? i with
  | none => exact absurd (List.get?_eq_none.mp hr) (by omega)
  | some row => exact List.get?_set_eq_of_lt _ hi

theorem applyChanges_field_untouched (cs : List EditChange) :
    ∀ (d : List Row) (i : Nat) (f : String),
      (∀ c ∈ cs, ¬(c.rowIndex = (i : Int) ∧ c.field = f)) →
      getField (((applyChanges d cs).get? i).getD []) f =
        getField ((d.get? i).getD []) f := by
  induction cs with
  | nil => intro d i f _; rfl
  | cons c cs ih =>
    intro d i f h
    have hstep : getField (((applyChange d c).get? i).getD []) f =
        getField ((d.get? i).getD []) f := by
      by_cases hc : c.rowIndex = (i : Int)
      · have hf : c.field ≠ f := fun hf => (h c (by simp)) ⟨hc, hf⟩
        by_cases hi : i < d.length
        · rw [applyChange_get?_targets d c i hc hi]
          simp only [Option.getD_some]
          exact getField_setField_ne _ _ _ _ (fun he => hf he.symm)
        · have hr : d.get? c.rowIndex.toNat = none := by
            rw [List.get?_eq_none]
            omega
          have hr2 : d.get? i = none := by
            rw [List.get?_eq_none]
            omega
          unfold applyChange
          rw [if_pos (by omega), hr]
      · rw [applyChange_get?_ne d c i hc]
    show getField (((applyChanges (applyChange d c) cs).get? i).getD []) f = _
    rw [ih (applyChange d c) i f (fun c' hc' => h c' (by simp [hc'])), hstep]

theorem applyChanges_getField_last (changes : List EditChange) :
    ∀ (data : List Row) (i : Nat) (f : String) (v : Value),
      i < data.length → lastTargeting changes (i : Int) f = some v →
      getField (((applyChanges data changes).get? i).getD []) f = v := by
  induction changes with
  | nil => intro data i f v _ hlast; simp [lastTargeting] at hlast
  | cons c cs ih =>
    intro data i f v hi hlast
    by_cases hlcs : cs.filter (fun c' => c'.rowIndex == (i : Int) && c'.field == f) = []
    · have hpred : (c.rowIndex == (i : Int) && c.field == f) = true ∧ v = c.newValue := by
        unfold lastTargeting at hlast
        rw [List.filter_cons] at hlast
        by_cases hp : (c.rowIndex == (i : Int) && c.field == f) = true
        · rw [if_pos hp, hlcs] at hlast
          simp at hlast
          exact ⟨hp, hlast.symm⟩
        · rw [if_neg hp, hlcs] at hlast
          simp at hlast
      obtain ⟨hp, hv⟩ := hpred
      simp only [Bool.and_eq_true, beq_iff_eq] at hp
      show getField (((applyChanges (applyChange data c) cs).get? i).getD []) f = v
      rw [applyChanges_field_untouched cs (applyChange data c) i f ?notarget]
      case notarget =>
        intro c' hc' hcontr
        have := List.filter_eq_nil_iff.mp hlcs c' hc'
        simp [hcontr.1, hcontr.2] at this
      rw [applyChange_get?_targets data c i hp.1 hi]
      simp only [Option.getD_some]
      rw [← hp.2, getField_setField_self, hv]
    · have hlast' : lastTargeting cs (i : Int) f = some v := by
        unfold lastTargeting at hlast ⊢
        rw [List.filter_cons] at hlast
        by_cases hp : (c.rowIndex == (i : Int) && c.field == f) = true
        · rw [if_pos hp] at hlast
          rcases hfe : cs.filter (fun c' => c'.rowIndex == (i : Int) && c'.field == f) with
            _ | ⟨y, ys⟩
          · exact absurd hfe hlcs
          · rw [hfe] at hlast
            rw [hfe]
            simpa using hlast
        · rw [if_neg hp] at hlast
          exact hlast
      exact ih (applyChange data c) i f v (by rw [applyChange_length]; exact hi) hlast'

theorem applyChange_out_of_range (d : List Row) (c : EditChange)
    (h : ¬(0 ≤ c.rowIndex ∧ c.rowIndex < (d.length : Int))) :
    applyChange d c = d := by
  unfold applyChange
  split
  · rename_i h0
    have hr : d.get? c.rowIndex.toNat = none := by
      rw [List.get?_eq_none]
      omega
    rw [hr]
  · rfl

theorem applyFix_out_of_range (d : List Row) (fx : ValidationFix)
    (h : ¬(0 ≤ fx.rowIndex ∧ fx.rowIndex < (d.length : Int))) :
    applyFix d fx = d := by
  unfold applyFix
  split
  · rename_i h0
    have hr : d.get? fx.rowIndex.toNat = none := by
      rw [List.get?_eq_none]
      omega
    rw [hr]
  · rfl

theorem applyChanges_filter_in_range (changes : List EditChange) :
    ∀ data : List Row,
      applyChanges data changes =
        applyChanges data (changes.filter (fun c =>
          decide (0 ≤ c.rowIndex) && decide (c.rowIndex < (data.length : Int)))) := by
  induction changes with
  | nil => intro data; rfl
  | cons c cs ih =>
    intro data
    rw [List.filter_cons]
    by_cases hp : (decide (0 ≤ c.rowIndex) && decide (c.rowIndex < (data.length : Int))) = true
    · rw [if_pos hp]
      show applyChanges (applyChange data c) cs =
        applyChanges (applyChange data c) (cs.filter _)
      simpa [applyChange_length] using ih (applyChange data c)
    · rw [if_neg hp]
      simp only [Bool.and_eq_true, decide_eq_true_eq, not_and] at hp
      have hd : applyChange data c = data := by
        apply applyChange_out_of_range
        intro hcontr
        exact absurd (hp hcontr.1) (not_not.mpr hcontr.2)
      show applyChanges (applyChange data c) cs = applyChanges data (cs.filter _)
      rw [hd]
      exact ih data

theorem applyAllFixes_filter_in_range (fixes : List ValidationFix) :
    ∀ data : List Row,
      applyAllFixes data fixes =
        applyAllFixes data (fixes.filter (fun fx =>
          decide (0 ≤ fx.rowIndex) && decide (fx.rowIndex < (data.length : Int)))) := by
  induction fixes with
  | nil => intro data; rfl
  | cons fx fxs ih =>
    intro data
    rw [List.filter_cons]
    by_cases hp : (decide (0 ≤ fx.rowIndex) && decide (fx.rowIndex < (data.length : Int))) = true
    · rw [if_pos hp]
      show applyAllFixes (applyFix data fx) fxs =
        applyAllFixes (applyFix data fx) (fxs.filter _)
      simpa [applyFix_length] using ih (applyFix data fx)
    · rw [if_neg hp]
      simp only [Bool.and_eq_true, decide_eq_true_eq, not_and] at hp
      have hd : applyFix data fx = data := by
        apply applyFix_out_of_range
        intro hcontr
        exact absurd (hp hcontr.1) (not_not.mpr hcontr.2)
      show applyAllFixes (applyFix data fx) fxs = applyAllFixes data (fxs.filter _)
      rw [hd]
      exact ih data

theorem applySelectedFixes_isSome (fixes : List ValidationFix) (selected : List Nat) :
    ∀ data : List Row, (∀ j ∈ selected, j < fixes.length) →
      ∃ d, applySelectedFixes data fixes selected = some d := by
  induction selected with
  | nil => intro data _; exact ⟨data, rfl⟩
  | cons j js ih =>
    intro data hsel
    have hj : j < fixes.length := hsel j (by simp)
    obtain ⟨fx, hfx⟩ : ∃ fx, fixes.get? j = some fx := by
      cases h : fixes.get? j with
      | none => exact absurd (List.get?_eq_none.mp h) (by omega)
      | some fx => exact ⟨fx, rfl⟩
    obtain ⟨d2, hd2⟩ := ih (applyFix data fx) (fun j' hj' => hsel j' (by simp [hj']))
    refine ⟨d2, ?_⟩
    unfold applySelectedFixes at hd2 ⊢
    simp only [List.foldlM_cons, hfx, Option.map_some']
    simpa using hd2

/-! ### Claims C8 and C10: batch application -/

/-- Claim C8: `handleApplyChanges` writes each batch entry in insertion
order, so when two entries target the same row index and field the row
afterwards holds the last entry's newValue: whenever the last batch
entry targeting in-range row `i` and field `f` carries newValue `v`,
the applied dataset keeps its length and row `i` holds `v` at `f`. -/
theorem applyChanges_last_write_wins (data : List Row) (changes : List EditChange)
    (i : Nat) (hi : i < data.length) (f : String) (v : Value)
    (hlast : lastTargeting changes (i : Int) f = some v) :
    (applyChanges data changes).length = data.length ∧
    getField (((applyChanges data changes).get? i).getD []) f = v :=
  ⟨applyChanges_length changes data,
   applyChanges_getField_last changes data i f v hi hlast⟩

/-- Witness for claim C8: two changes to row 0, field A; the row ends
holding the second newValue. -/
theorem applyChanges_last_write_wins_witness :
    (applyChanges [[("A", Value.str "0")]]
        [⟨0, "A", Value.str "0", Value.str "1"⟩,
         ⟨0, "A", Value.str "0", Value.str "2"⟩]).length = 1 ∧
    getField (((applyChanges [[("A", Value.str "0")]]
        [⟨0, "A", Value.str "0", Value.str "1"⟩,
         ⟨0, "A", Value.str "0", Value.str "2"⟩]).get? 0).getD []) "A" =
      Value.str "2" :=
  applyChanges_last_write_wins [[("A", Value.str "0")]]
    [⟨0, "A", Value.str "0", Value.str "1"⟩, ⟨0, "A", Value.str "0", Value.str "2"⟩]
    0 (by decide) "A" (Value.str "2") (by decide)

/-- Claim C10: batch application of edit changes and of fixes is
tolerant of out-of-range row indices — entries whose rowIndex has no
corresponding row are skipped (removing them changes nothing) while
in-range entries are still applied, and applying a valid selection of
fixes always produces a dataset (no failure). -/
theorem apply_out_of_range_tolerant (data : List Row) (changes : List EditChange)
    (fixes : List ValidationFix) (selected : List Nat)
    (hsel : ∀ j ∈ selected, j < fixes.length) :
    applyChanges data changes =
      applyChanges data (changes.filter (fun c =>
        decide (0 ≤ c.rowIndex) && decide (c.rowIndex < (data.length : Int)))) ∧
    applyAllFixes data fixes =
      applyAllFixes data (fixes.filter (fun fx =>
        decide (0 ≤ fx.rowIndex) && decide (fx.rowIndex < (data.length : Int)))) ∧
    ∃ d, applySelectedFixes data fixes selected = some d :=
  ⟨applyChanges_filter_in_range changes data,
   applyAllFixes_filter_in_range fixes data,
   applySelectedFixes_isSome fixes selected data hsel⟩

/-- Witness for claim C10: a change with rowIndex 2 on a one-row
dataset and a fix with rowIndex -1 are skipped; the selected fix list
applies successfully. -/
theorem apply_out_of_range_tolerant_witness :
    applyChanges [[("A", Value.str "x")]]
        [⟨2, "A", Value.str "x", Value.str "y"⟩,
         ⟨0, "A", Value.str "x", Value.str "y"⟩] =
      applyChanges [[("A", Value.str "x")]]
        ([⟨2, "A", Value.str "x", Value.str "y"⟩,
          ⟨0, "A", Value.str "x", Value.str "y"⟩].filter (fun c =>
          decide (0 ≤ c.rowIndex) &&
            decide (c.rowIndex < (([[("A", Value.str "x")]] : List Row).length : Int)))) ∧
    applyAllFixes [[("A", Value.str "x")]]
        [⟨-1, "A", Value.str "x", Value.str "z", "r"⟩] =
      applyAllFixes [[("A", Value.str "x")]]
        ([⟨-1, "A", Value.str "x", Value.str "z", "r"⟩].filter (fun fx =>
          decide (0 ≤ fx.rowIndex) &&
            decide (fx.rowIndex < (([[("A", Value.str "x")]] : List Row).length : Int)))) ∧
    ∃ d, applySelectedFixes [[("A", Value.str "x")]]
        [⟨-1, "A", Value.str "x", Value.str "z", "r"⟩] [0] = some d :=
  apply_out_of_range_tolerant [[("A", Value.str "x")]]
    [⟨2, "A", Value.str "x", Value.str "y"⟩, ⟨0, "A", Value.str "x", Value.str "y"⟩]
    [⟨-1, "A", Value.str "x", Value.str "z", "r"⟩] [0] (by decide)

/-! ### Claims C1 and C7: AI contract gateway -/

theorem scanReplace_no_backspace (lc rep : List Char) :
    ∀ (fuel : Nat) (cs prev : List Char), cs.length < fuel → backspace ∉ cs →
      scanReplace lc rep fuel prev cs = cs := by
  intro fuel
  induction fuel with
  | zero => intro cs prev h _; omega
  | succ fuel ih =>
    intro cs prev hlen hbs
    cases cs with
    | nil => rfl
    | cons c rest =>
      have hcond : (!lc.isEmpty && lc.isPrefixOf (c :: rest) && lookbehindOk prev &&
          decide (((c :: rest).drop lc.length).head? = some backspace)) = false := by
        rcases hd : (c :: rest).drop lc.length with _ | ⟨x, xs⟩
        · simp
        · have hx : x ∈ c :: rest := List.drop_subset _ _ (hd ▸ List.mem_cons_self x xs)
          have hxb : ¬(x = backspace) := fun he => hbs (he ▸ hx)
          simp [hxb]
      simp only [scanReplace, hcond, Bool.false_eq_true, if_false]
      rw [ih rest (c :: prev) (by simp at hlen ⊢; omega)
        (fun hm => hbs (List.mem_cons_of_mem c hm))]

/-- Claim C1 (code bug): the column-name rewrite of
`mapFilterFunctionToOriginalColumns` never fires on any predicate text
that contains no backspace character — i.e. on every real predicate —
because the regex is built from a template literal in which `\b` is
the backspace escape, so the lookahead requires a literal U+0008 after
the column name.  The output is always the unmodified input, never the
canonical-case rewrite the spec describes. -/
theorem mapFilterFunctionToOriginalColumns_no_rewrite (text : String)
    (columns : List String) (h : backspace ∉ text.toList) :
    mapFilterFunctionToOriginalColumns text columns = text := by
  unfold mapFilterFunctionToOriginalColumns
  induction columns with
  | nil => rfl
  | cons col cols ih =>
    simp only [List.foldl_cons]
    have hone : String.mk
        (scanReplace col.toLower.toList col.toList (text.length + 1) [] text.toList) =
        text := by
      rw [scanReplace_no_backspace col.toLower.toList col.toList (text.length + 1)
        text.toList [] (by exact Nat.lt_succ_of_le (Nat.le_of_eq rfl)) h]
      cases text
      rfl
    rw [hone]
    exact ih

/-- Witness for claim C1: the lowercased predicate of the spec's own
example is returned unchanged, not rewritten to the exact-case column
name. -/
theorem mapFilterFunctionToOriginalColumns_no_rewrite_witness :
    backspace ∉ "row => row.prioritylevel > 3".toList ∧
    mapFilterFunctionToOriginalColumns "row => row.prioritylevel > 3"
        ["PriorityLevel"] = "row => row.prioritylevel > 3" ∧
    mapFilterFunctionToOriginalColumns "row => row.prioritylevel > 3"
        ["PriorityLevel"] ≠ "row => row.PriorityLevel > 3" := by
  refine ⟨by decide, mapFilterFunctionToOriginalColumns_no_rewrite _ _ (by decide), ?_⟩
  rw [mapFilterFunctionToOriginalColumns_no_rewrite _ _ (by decide)]
  decide

/-- Claim C7: a provider response in which the path
`candidates[0].content.parts[0].text` is absent yields the empty
string, and each of the five gateway operations treats the empty
string as "no response" and fails with its operation error instead of
returning a result. -/
theorem gateway_empty_response_fails (r : GeminiResponse) (columns : List String)
    (h : geminiPathText r = none) :
    geminiExtractText r = "" ∧
    generateFilterFromResponse (geminiExtractText r) columns =
      Except.error "Unable to parse query." ∧
    generateEditFromResponse (geminiExtractText r) =
      Except.error "Failed to generate edit" ∧
    generateRuleSuggestionsFromResponse (geminiExtractText r) =
      Except.error "Failed to generate rule suggestions" ∧
    generateValidationFixesFromResponse (geminiExtractText r) =
      Except.error "Failed to generate validation fixes" ∧
    generateAIValidationWarningsFromResponse (geminiExtractText r) =
      Except.error "Failed to generate AI validation warnings" := by
  have he : geminiExtractText r = "" := by
    unfold geminiExtractText
    rw [h]
  exact ⟨he, by rw [he]; rfl, by rw [he]; rfl, by rw [he]; rfl, by rw [he]; rfl,
    by rw [he]; rfl⟩

/-- Witness for claim C7: a response with no candidates. -/
theorem gateway_empty_response_fails_witness :
    geminiExtractText ⟨[]⟩ = "" ∧
    generateFilterFromResponse (geminiExtractText ⟨[]⟩) [] =
      Except.error "Unable to parse query." ∧
    generateEditFromResponse (geminiExtractText ⟨[]⟩) =
      Except.error "Failed to generate edit" ∧
    generateRuleSuggestionsFromResponse (geminiExtractText ⟨[]⟩) =
      Except.error "Failed to generate rule suggestions" ∧
    generateValidationFixesFromResponse (geminiExtractText ⟨[]⟩) =
      Except.error "Failed to generate validation fixes" ∧
    generateAIValidationWarningsFromResponse (geminiExtractText ⟨[]⟩) =
      Except.error "Failed to generate AI validation warnings" :=
  gateway_empty_response_fails ⟨[]⟩ [] rfl

/-! ### Claims C4 and C6: instruction parser -/

/-- Claim C4 (counterexample): for a matched row whose current value
trims to braces but fails to parse as JSON and contains a comma, the
parse failure falls through to the comma-append branch, not to the
literal-replacement branch: the new value is the old string with the
replacement appended after a comma, not the replacement verbatim. -/
theorem parseEdit_json_parse_failure_cex :
    parseEditInstruction "set F=X where G=y"
        [[("F", Value.str "\x7bnot,json\x7d"), ("G", Value.str "y")]] =
      [⟨0, "F", Value.str "\x7bnot,json\x7d", Value.str "\x7bnot,json\x7d,X"⟩] ∧
    Value.str "\x7bnot,json\x7d,X" ≠ Value.str "X" :=
  ⟨by with_unfolding_all rfl, by decide⟩

/-- Claim C4 (amended): for a matched row whose current field value is
a string trimming to start with a brace and end with a brace, a
successful JSON parse yields, as the new value, the re-serialization
with every existing key's value overwritten by the literal replacement
text; a failed JSON parse falls through to the remaining branches —
comma-append when the string contains a comma, literal replacement
otherwise. -/
theorem computeChange_json_branch (row : Row) (i : Nat) (f nv s : String)
    (hs : getField row f = Value.str s)
    (hb : bracesTrimmed s = true) :
    (∀ kvs, jsonParse s = some (Json.obj kvs) →
      computeChange row i f nv =
        ⟨(i : Int), f, Value.str s,
          Value.str (jstringify (Json.obj (kvs.map (fun kv => (kv.1, Json.str nv)))))⟩) ∧
    (jsonParse s = none →
      computeChange row i f nv =
        ⟨(i : Int), f, Value.str s,
          Value.str (if s.contains ',' then s ++ "," ++ nv else nv)⟩) := by
  constructor
  · intro kvs hkvs
    unfold computeChange
    rw [hs]
    simp only [hb, if_true, hkvs]
  · intro hnone
    unfold computeChange
    rw [hs]
    simp only [hb, if_true, hnone]
    by_cases hcomma : s.contains ','
    · simp [hcomma]
    · simp [hcomma]

/-- Witness for claim C4: the success branch on a one-key JSON value
overwrites the key with the replacement text and re-serializes. -/
theorem computeChange_json_branch_witness :
    computeChange [("F", Value.str "\x7b\"a\":1\x7d")] 0 "F" "X" =
      ⟨(0 : Int), "F", Value.str "\x7b\"a\":1\x7d",
        Value.str (jstringify (Json.obj ([("a", Json.num 1)].map
          (fun kv => (kv.1, Json.str "X")))))⟩ :=
  (computeChange_json_branch [("F", Value.str "\x7b\"a\":1\x7d")] 0 "F" "X"
      "\x7b\"a\":1\x7d" (by decide) (by with_unfolding_all rfl)).1
    [("a", Json.num 1)] (by with_unfolding_all rfl)

/-- Claim C6: `parseEditInstruction` returns the empty list whenever
the instruction matches neither pattern, and also when the conditional
pattern matches but no row satisfies the where-condition; in
particular a nonsense instruction yields the empty list for every row
set. -/
theorem parseEdit_no_match (instruction : String) (rows : List Row) :
    ((regexMatch condPattern instruction = none ∧
        regexMatch allPattern instruction = none) →
      parseEditInstruction instruction rows = []) ∧
    (∀ field newValue whereField whereValueRaw,
      regexMatch condPattern instruction =
          some [field, newValue, whereField, whereValueRaw] →
      (∀ row ∈ rows,
        (jsToString (getField row whereField)).toLower ≠ whereValueRaw.toLower) →
      parseEditInstruction instruction rows = []) ∧
    parseEditInstruction "nonsense instruction" rows = [] := by
  refine ⟨?_, ?_, ?_⟩
  · rintro ⟨h1, h2⟩
    unfold parseEditInstruction
    rw [h1, h2]
  · intro field newValue whereField whereValueRaw hm hnone
    unfold parseEditInstruction
    rw [hm]
    simp only [List.filterMap_eq_nil_iff]
    intro p hp
    have hmem : p.2 ∈ rows := by
      have hg := List.mem_enum_iff_get?.mp hp
      exact List.get?_mem hg
    exact if_neg (hnone p.2 hmem)
  · have hc : regexMatch condPattern "nonsense instruction" = none := by decide
    have ha : regexMatch allPattern "nonsense instruction" = none := by decide
    unfold parseEditInstruction
    rw [hc, ha]

/-- Witness for claim C6: a conditional instruction whose condition no
row satisfies yields the empty list. -/
theorem parseEdit_no_match_witness :
    parseEditInstruction "set X=1 where Y=2" [[("Y", Value.str "3")]] = [] :=
  (parseEdit_no_match "set X=1 where Y=2" [[("Y", Value.str "3")]]).2.1
    "X" "1" "Y" "2" (by decide) (by with_unfolding_all decide)

/-! ### Helper lemmas: validator error provenance -/

theorem mem_clientPriorityErrors (row : Row) (i : Nat) :
    ∀ e ∈ clientPriorityErrors row i, e.rowIndex = i ∧ e.field = "PriorityLevel" := by
  unfold clientPriorityErrors
  repeat' split
  all_goals simp

theorem mem_clientRequestedErrors (row : Row) (i : Nat) (errs : List ValidationError)
    (hok : clientRequestedErrors row i = Except.ok errs) :
    ∀ e ∈ errs, e.rowIndex = i ∧ e.field = "RequestedTaskIDs" := by
  unfold clientRequestedErrors at hok
  split at hok
  · split at hok
    · rw [Except.ok.injEq] at hok
      subst hok
      intro e he
      split at he
      · simp at he; simp [he]
      · simp at he
    · exact absurd hok (by simp)
  · rw [Except.ok.injEq] at hok
    subst hok
    intro e he
    simp at he

theorem mem_clientAttributesErrors (row : Row) (i : Nat) :
    ∀ e ∈ clientAttributesErrors row i, e.rowIndex = i ∧ e.field = "AttributesJSON" := by
  unfold clientAttributesErrors
  repeat' split
  all_goals simp

theorem mem_workerSlotsErrors (row : Row) (i : Nat) :
    ∀ e ∈ workerSlotsErrors row i, e.rowIndex = i ∧ e.field = "AvailableSlots" := by
  unfold workerSlotsErrors
  repeat' split
  all_goals simp

theorem mem_workerLoadErrors (row : Row) (i : Nat) :
    ∀ e ∈ workerLoadErrors row i, e.rowIndex = i ∧ e.field = "MaxLoadPerPhase" := by
  unfold workerLoadErrors
  repeat' split
  all_goals simp

theorem mem_workerQualErrors (row : Row) (i : Nat) :
    ∀ e ∈ workerQualErrors row i, e.rowIndex = i ∧ e.field = "QualificationLevel" := by
  unfold workerQualErrors
  repeat' split
  all_goals simp

theorem mem_taskDurationErrors (row : Row) (i : Nat) :
    ∀ e ∈ taskDurationErrors row i, e.rowIndex = i ∧ e.field = "Duration" := by
  unfold taskDurationErrors
  repeat' split
  all_goals simp

theorem mem_taskConcurrentErrors (row : Row) (i : Nat) :
    ∀ e ∈ taskConcurrentErrors row i, e.rowIndex = i ∧ e.field = "MaxConcurrent" := by
  unfold taskConcurrentErrors
  repeat' split
  all_goals simp

theorem mem_taskPhasesErrors (row : Row) (i : Nat) :
    ∀ e ∈ taskPhasesErrors row i, e.rowIndex = i ∧ e.field = "PreferredPhases" := by
  unfold taskPhasesErrors
  repeat' split
  all_goals simp

theorem mem_validateClient (row : Row) (i : Nat) (errs : List ValidationError)
    (hok : validateClient row i = Except.ok errs) :
    ∀ e ∈ errs,
      e.rowIndex = i ∧
        (e.field = "PriorityLevel" ∨ e.field = "RequestedTaskIDs" ∨
          e.field = "AttributesJSON") := by
  intro e he
  unfold validateClient at hok
  split at hok
  · exact absurd hok (by simp)
  · rename_i e2 hreq
    rw [Except.ok.injEq] at hok
    subst hok
    simp only [List.mem_append] at he
    rcases he with (he | he) | he
    · obtain ⟨h1, h2⟩ := mem_clientPriorityErrors row i e he
      exact ⟨h1, Or.inl h2⟩
    · obtain ⟨h1, h2⟩ := mem_clientRequestedErrors row i e2 hreq e he
      exact ⟨h1, Or.inr (Or.inl h2)⟩
    · obtain ⟨h1, h2⟩ := mem_clientAttributesErrors row i e he
      exact ⟨h1, Or.inr (Or.inr h2)⟩

theorem mem_validateWorker (row : Row) (i : Nat) :
    ∀ e ∈ validateWorker row i,
      e.rowIndex = i ∧
        (e.field = "AvailableSlots" ∨ e.field = "MaxLoadPerPhase" ∨
          e.field = "QualificationLevel") := by
  intro e he
  unfold validateWorker at he
  simp only [List.mem_append] at he
  rcases he with (he | he) | he
  · obtain ⟨h1, h2⟩ := mem_workerSlotsErrors row i e he
    exact ⟨h1, Or.inl h2⟩
  · obtain ⟨h1, h2⟩ := mem_workerLoadErrors row i e he
    exact ⟨h1, Or.inr (Or.inl h2)⟩
  · obtain ⟨h1, h2⟩ := mem_workerQualErrors row i e he
    exact ⟨h1, Or.inr (Or.inr h2)⟩

theorem mem_validateTask (row : Row) (i : Nat) :
    ∀ e ∈ validateTask row i,
      e.rowIndex = i ∧
        (e.field = "Duration" ∨ e.field = "MaxConcurrent" ∨
          e.field = "PreferredPhases") := by
  intro e he
  unfold validateTask at he
  simp only [List.mem_append] at he
  rcases he with (he | he) | he
  · obtain ⟨h1, h2⟩ := mem_taskDurationErrors row i e he
    exact ⟨h1, Or.inl h2⟩
  · obtain ⟨h1, h2⟩ := mem_taskConcurrentErrors row i e he
    exact ⟨h1, Or.inr (Or.inl h2)⟩
  · obtain ⟨h1, h2⟩ := mem_taskPhasesErrors row i e he
    exact ⟨h1, Or.inr (Or.inr h2)⟩

theorem mem_entityErrors (et : String) (row : Row) (i : Nat) (errs : List ValidationError)
    (hok : entityErrors et row i = Except.ok errs) :
    ∀ e ∈ errs, e.rowIndex = i ∧ e.field ≠ getIDField et := by
  intro e he
  unfold entityErrors at hok
  split at hok
  · obtain ⟨h1, h2⟩ := mem_validateClient row i errs hok e he
    refine ⟨h1, ?_⟩
    show e.field ≠ getIDField "clients"
    rcases h2 with h2 | h2 | h2 <;> simp [h2, getIDField]
  · replace hok : validateWorker row i = errs := by simpa using hok
    subst hok
    obtain ⟨h1, h2⟩ := mem_validateWorker row i e he
    refine ⟨h1, ?_⟩
    show e.field ≠ getIDField "workers"
    rcases h2 with h2 | h2 | h2 <;> simp [h2, getIDField]
  · replace hok : validateTask row i = errs := by simpa using hok
    subst hok
    obtain ⟨h1, h2⟩ := mem_validateTask row i e he
    refine ⟨h1, ?_⟩
    show e.field ≠ getIDField "tasks"
    rcases h2 with h2 | h2 | h2 <;> simp [h2, getIDField]
  · replace hok : ([] : List ValidationError) = errs := by simpa using hok
    subst hok
    simp at he

theorem mem_idCheckStep (fld : String) (seen : List Value) (row : Row) (i : Nat) :
    ∀ e ∈ (idCheckStep fld seen row i).1, e.rowIndex = i ∧ e.field = fld := by
  unfold idCheckStep
  repeat' split
  all_goals simp

theorem validateDataAux_bounds (et : String) (rest : List Row) :
    ∀ (i0 : Nat) (seen : List Value) (errs : List ValidationError),
      validateDataAux et rest i0 seen = Except.ok errs →
      ∀ e ∈ errs, i0 ≤ e.rowIndex ∧ e.rowIndex < i0 + rest.length := by
  induction rest with
  | nil =>
    intro i0 seen errs hok e he
    replace hok : ([] : List ValidationError) = errs := by
      simpa [validateDataAux] using hok
    subst hok
    simp at he
  | cons row rest ih =>
    intro i0 seen errs hok e he
    unfold validateDataAux at hok
    rcases hstep : idCheckStep (getIDField et) seen row i0 with ⟨idErrs, seen2⟩
    rw [hstep] at hok
    simp only at hok
    split at hok
    · exact absurd hok (by simp)
    · rename_i ent hent
      split at hok
      · exact absurd hok (by simp)
      · rename_i tail htail
        rw [Except.ok.injEq] at hok
        subst hok
        simp only [List.mem_append] at he
        rcases he with (he | he) | he
        · have h1 := (mem_idCheckStep (getIDField et) seen row i0 e (hstep ▸ he)).1
          simp [h1]
        · have h1 := (mem_entityErrors et row i0 ent hent e he).1
          simp [h1]
        · obtain ⟨ha, hb⟩ := ih (i0 + 1) seen2 tail htail e he
          simp only [List.length_cons]
          omega

/-! ### Claim C9: error row indices stay in range -/

/-- Claim C9: every validation error produced by `validateData` has a
row index strictly below the number of rows of the validated dataset,
so re-validation after a mutation never reports an error beyond the
current dataset length. -/
theorem validateData_rowIndex_lt (et : String) (rows : List Row)
    (res : ValidationResult) (hok : validateData et rows = Except.ok res) :
    ∀ e ∈ res.errors, e.rowIndex < rows.length := by
  intro e he
  unfold validateData at hok
  split at hok
  · rename_i hlen
    replace hok : res = ⟨true, []⟩ := by simpa using hok.symm
    subst hok
    simp at he
  · split at hok
    · exact absurd hok (by simp)
    · rename_i errs haux
      replace hok : res = ⟨errs.length = 0, errs⟩ := by simpa using hok.symm
      subst hok
      have := (validateDataAux_bounds et rows 0 [] errs haux e he).2
      simpa using this

/-- Witness for claim C9: a row with a missing identifier produces an
error whose row index 0 is below the dataset length 1. -/
theorem validateData_rowIndex_lt_witness :
    (⟨0, "ClientID", "Missing ClientID"⟩ : ValidationError).rowIndex < 1 :=
  validateData_rowIndex_lt "clients" [[("A", Value.str "x")]]
    ⟨false, [⟨0, "ClientID", "Missing ClientID"⟩]⟩ (by with_unfolding_all rfl)
    ⟨0, "ClientID", "Missing ClientID"⟩ (by simp)

/-! ### Helper lemmas: duplicate-identifier counting -/

theorem idCheckStep_snd_iff (fld : String) (seen : List Value) (row : Row) (i : Nat)
    (v : Value) (hv : isTruthy v = true) (P : Prop) :
    (v ∈ (idCheckStep fld seen row i).2 ∨ P) ↔
      (v ∈ seen ∨ (getField row fld = v ∨ P)) := by
  unfold idCheckStep
  split
  · rename_i hc1
    simp only [Bool.or_eq_true, Bool.not_eq_true', beq_iff_eq] at hc1
    constructor
    · rintro (h | h)
      · exact Or.inl h
      · exact Or.inr (Or.inr h)
    · rintro (h | h | h)
      · exact Or.inl h
      · exfalso
        rcases hc1 with hc1 | hc1
        · rw [h] at hc1
          simp [hv] at hc1
        · have hvv : v = Value.str "" := h.symm.trans hc1
          rw [hvv] at hv
          simp [isTruthy] at hv
      · exact Or.inr h
  · split
    · rename_i hc1 hc2
      constructor
      · rintro (h | h)
        · exact Or.inl h
        · exact Or.inr (Or.inr h)
      · rintro (h | h | h)
        · exact Or.inl h
        · exact Or.inl (h ▸ hc2)
        · exact Or.inr h
    · rename_i hc1 hc2
      simp only [List.mem_cons]
      constructor
      · rintro ((h | h) | h)
        · exact Or.inr (Or.inl h.symm)
        · exact Or.inl h
        · exact Or.inr (Or.inr h)
      · rintro (h | h | h)
        · exact Or.inl (Or.inr h)
        · exact Or.inl (Or.inl h.symm)
        · exact Or.inr h

theorem exists_lt_succ_cons_getD (row : Row) (rest : List Row) (k : Nat)
    (Q : Row → Prop) :
    (∃ j, j < k + 1 ∧ Q ((row :: rest).getD j [])) ↔
      (Q row ∨ ∃ j, j < k ∧ Q (rest.getD j [])) := by
  constructor
  · rintro ⟨j, hj, hQ⟩
    cases j with
    | zero => exact Or.inl (by simpa using hQ)
    | succ j => exact Or.inr ⟨j, by omega, by simpa using hQ⟩
  · rintro (h | ⟨j, hj, hQ⟩)
    · exact ⟨0, by omega, by simpa using h⟩
    · exact ⟨j + 1, by omega, by simpa using hQ⟩

theorem validateDataAux_count (et : String) (rows : List Row) :
    ∀ (i0 : Nat) (seen : List Value) (errs : List ValidationError),
      validateDataAux et rows i0 seen = Except.ok errs →
      ∀ k, k < rows.length →
        isTruthy (getField (rows.getD k []) (getIDField et)) = true →
        ((¬ (getField (rows.getD k []) (getIDField et) ∈ seen ∨
             ∃ j, j < k ∧ getField (rows.getD j []) (getIDField et) =
               getField (rows.getD k []) (getIDField et)) →
           countFieldErrors errs (i0 + k) (getIDField et) = 0) ∧
         ((getField (rows.getD k []) (getIDField et) ∈ seen ∨
             ∃ j, j < k ∧ getField (rows.getD j []) (getIDField et) =
               getField (rows.getD k []) (getIDField et)) →
           countFieldErrors errs (i0 + k) (getIDField et) = 1)) := by
  induction rows with
  | nil =>
    intro i0 seen errs hok k hk
    simp at hk
  | cons row rest ih =>
    intro i0 seen errs hok k hk htr
    unfold validateDataAux at hok
    rcases hstep : idCheckStep (getIDField et) seen row i0 with ⟨idErrs, seen2⟩
    rw [hstep] at hok
    simp only at hok
    split at hok
    · exact absurd hok (by simp)
    · rename_i ent hent
      split at hok
      · exact absurd hok (by simp)
      · rename_i tail htail
        rw [Except.ok.injEq] at hok
        subst hok
        have hcnt : ∀ n, countFieldErrors (idErrs ++ ent ++ tail) n (getIDField et) =
            countFieldErrors idErrs n (getIDField et) +
              countFieldErrors ent n (getIDField et) +
              countFieldErrors tail n (getIDField et) := by
          intro n
          simp only [countFieldErrors_append]
        have hent0 : ∀ n, countFieldErrors ent n (getIDField et) = 0 := by
          intro n
          apply countFieldErrors_eq_zero
          intro e he
          exact Or.inr (mem_entityErrors et row i0 ent hent e he).2
        cases k with
        | zero =>
          have hrow : (row :: rest).getD 0 [] = row := by simp
          rw [hrow] at htr
          have htail0 : countFieldErrors tail i0 (getIDField et) = 0 := by
            apply countFieldErrors_eq_zero
            intro e he
            have := validateDataAux_bounds et rest (i0 + 1) seen2 tail htail e he
            exact Or.inl (by omega)
          unfold idCheckStep at hstep
          rw [if_neg ?hneg] at hstep
          case hneg =>
            simp only [Bool.or_eq_true, Bool.not_eq_true', beq_iff_eq, not_or]
            refine ⟨by simp [htr], ?_⟩
            intro h
            rw [h] at htr
            simp [isTruthy] at htr
          constructor
          · intro hnc
            rw [hrow] at hnc
            have hns : getField row (getIDField et) ∉ seen := fun h => hnc (Or.inl h)
            rw [if_neg hns] at hstep
            rw [Prod.mk.injEq] at hstep
            obtain ⟨h1, _⟩ := hstep
            subst h1
            simp only [Nat.add_zero, hcnt, hent0, htail0]
            simp [countFieldErrors]
          · intro hc
            rw [hrow] at hc
            rcases hc with hc | hc
            · rw [if_pos hc] at hstep
              rw [Prod.mk.injEq] at hstep
              obtain ⟨h1, _⟩ := hstep
              subst h1
              simp only [Nat.add_zero, hcnt, hent0, htail0]
              simp [countFieldErrors]
            · obtain ⟨j, hj, _⟩ := hc
              omega
        | succ k =>
          have hrow : (row :: rest).getD (k + 1) [] = rest.getD k [] := by simp
          rw [hrow] at htr
          have hIH := ih (i0 + 1) seen2 tail htail k (by simp at hk; omega) htr
          have hid0 : countFieldErrors idErrs (i0 + (k + 1)) (getIDField et) = 0 := by
            apply countFieldErrors_eq_zero
            intro e he
            have := (mem_idCheckStep (getIDField et) seen row i0 e (hstep ▸ he)).1
            exact Or.inl (by omega)
          have hiff : (getField (rest.getD k []) (getIDField et) ∈ seen2 ∨
                ∃ j, j < k ∧ getField (rest.getD j []) (getIDField et) =
                  getField (rest.getD k []) (getIDField et)) ↔
              (getField (rest.getD k []) (getIDField et) ∈ seen ∨
                ∃ j, j < k + 1 ∧ getField ((row :: rest).getD j []) (getIDField et) =
                  getField (rest.getD k []) (getIDField et)) := by
            have h1 := idCheckStep_snd_iff (getIDField et) seen row i0
              (getField (rest.getD k []) (getIDField et)) htr
              (∃ j, j < k ∧ getField (rest.getD j []) (getIDField et) =
                getField (rest.getD k []) (getIDField et))
            rw [hstep] at h1
            rw [exists_lt_succ_cons_getD row rest k
              (fun r => getField r (getIDField et) =
                getField (rest.getD k []) (getIDField et))]
            exact h1
          have hidx : i0 + (k + 1) = i0 + 1 + k := by omega
          constructor
          · intro hnc
            rw [hrow] at hnc
            have h0 := hIH.1 (fun hc => hnc (hiff.mp hc))
            rw [hcnt, hid0, hent0, hidx]
            omega
          · intro hc
            rw [hrow] at hc
            have h1 := hIH.2 (hiff.mpr hc)
            rw [hcnt, hid0, hent0, hidx]
            omega

/-! ### Claim C3: duplicate identifiers, first-seen-wins -/

/-- Claim C3: identifier uniqueness is checked first-seen-wins: for a
row `i` holding a present (truthy) identifier value, validation puts
no identifier-field error on row `i` when no earlier row holds the
same value, and exactly one identifier-field (duplicate) error on row
`i` when some earlier row holds the same value. -/
theorem validateData_duplicate_first_seen (et : String) (rows : List Row) (i : Nat)
    (hi : i < rows.length)
    (htr : isTruthy (getField (rows.getD i []) (getIDField et)) = true)
    (res : ValidationResult) (hres : validateData et rows = Except.ok res) :
    ((∀ j, j < i → getField (rows.getD j []) (getIDField et) ≠
        getField (rows.getD i []) (getIDField et)) →
      countFieldErrors res.errors i (getIDField et) = 0) ∧
    ((∃ j, j < i ∧ getField (rows.getD j []) (getIDField et) =
        getField (rows.getD i []) (getIDField et)) →
      countFieldErrors res.errors i (getIDField et) = 1) := by
  unfold validateData at hres
  split at hres
  · rename_i hlen
    omega
  · split at hres
    · exact absurd hres (by simp)
    · rename_i errs haux
      rw [Except.ok.injEq] at hres
      subst hres
      have h := validateDataAux_count et rows 0 [] errs haux i hi htr
      simp only [Nat.zero_add] at h
      constructor
      · intro hne
        apply h.1
        rintro (hc | ⟨j, hj, hQ⟩)
        · simp at hc
        · exact hne j hj hQ
      · intro ⟨j, hj, hQ⟩
        exact h.2 (Or.inr ⟨j, hj, hQ⟩)

/-- Witness for claim C3: identifier values A, A, B — row 1 carries
exactly one duplicate error. -/
theorem validateData_duplicate_first_seen_witness :
    countFieldErrors (⟨false,
        [⟨1, "ClientID", "Duplicate ClientID: A"⟩]⟩ : ValidationResult).errors
      1 (getIDField "clients") = 1 :=
  (validateData_duplicate_first_seen "clients"
      [[("ClientID", Value.str "A")], [("ClientID", Value.str "A")],
        [("ClientID", Value.str "B")]]
      1 (by decide) (by decide)
      ⟨false, [⟨1, "ClientID", "Duplicate ClientID: A"⟩]⟩
      (by with_unfolding_all rfl)).2
    ⟨0, by omega, by decide⟩

/-! ### Claim C2: totality of the validator -/

/-- Claim C2 (counterexample): `validateData` is not total — a client
row whose present RequestedTaskIDs value is a number reaches the
unguarded `.split` call, which throws a TypeError. -/
theorem validateData_throws_cex :
    validateData "clients"
        [[("ClientID", Value.str "C1"), ("RequestedTaskIDs", Value.num 5)]] =
      Except.error JsError.typeError := by
  with_unfolding_all rfl

theorem validateDataAux_total (et : String) (rows : List Row) :
    ∀ (i0 : Nat) (seen : List Value),
      (∀ row ∈ rows, stringWhenPresentRTI row = true) →
      ∃ errs, validateDataAux et rows i0 seen = Except.ok errs := by
  induction rows with
  | nil => intro i0 seen _; exact ⟨[], rfl⟩
  | cons row rest ih =>
    intro i0 seen hall
    have hent : ∃ ent, entityErrors et row i0 = Except.ok ent := by
      unfold entityErrors
      split
      · have hreq : ∃ e2, clientRequestedErrors row i0 = Except.ok e2 := by
          have h := hall row (List.mem_cons_self row rest)
          unfold stringWhenPresentRTI at h
          unfold clientRequestedErrors
          cases hv : getField row "RequestedTaskIDs" with
          | str s =>
            split
            · exact ⟨_, rfl⟩
            · exact ⟨[], rfl⟩
          | num q =>
            rw [hv] at h
            simp [valueIsString] at h
            split
            · rename_i hp
              exact absurd hp (by simp [h])
            · exact ⟨[], rfl⟩
          | null =>
            rw [hv] at h
            simp [valueIsString] at h
            split
            · rename_i hp
              exact absurd hp (by simp [h])
            · exact ⟨[], rfl⟩
          | undefined =>
            rw [hv] at h
            simp [valueIsString] at h
            split
            · rename_i hp
              exact absurd hp (by simp [h])
            · exact ⟨[], rfl⟩
        obtain ⟨e2, he2⟩ := hreq
        unfold validateClient
        rw [he2]
        exact ⟨_, rfl⟩
      · exact ⟨_, rfl⟩
      · exact ⟨_, rfl⟩
      · exact ⟨_, rfl⟩
    obtain ⟨ent, hent⟩ := hent
    obtain ⟨tail, htail⟩ := ih (i0 + 1) (idCheckStep (getIDField et) seen row i0).2
      (fun r hr => hall r (List.mem_cons_of_mem row hr))
    refine ⟨(idCheckStep (getIDField et) seen row i0).1 ++ ent ++ tail, ?_⟩
    unfold validateDataAux
    show (match entityErrors et row i0 with
      | Except.error err => Except.error err
      | Except.ok ent2 =>
        match validateDataAux et rest (i0 + 1)
            (idCheckStep (getIDField et) seen row i0).2 with
        | Except.error err => Except.error err
        | Except.ok tail2 =>
          Except.ok ((idCheckStep (getIDField et) seen row i0).1 ++ ent2 ++ tail2)) =
      Except.ok ((idCheckStep (getIDField et) seen row i0).1 ++ ent ++ tail)
    rw [hent, htail]

/-- Claim C2 (amended): `validateData` always returns a result — never
throws — provided every row's RequestedTaskIDs value is a string
whenever it is present and non-empty (in particular for all-string
rows); and for an empty or absent dataset it returns
`validated = true` with an empty error list.  (Unamended the claim
fails: a present non-string RequestedTaskIDs throws, see the
counterexample.) -/
theorem validateData_total_amended (et : String) (rows : List Row)
    (h : rows.all stringWhenPresentRTI = true) :
    (∃ res, validateData et rows = Except.ok res) ∧
    validateData et [] = Except.ok ⟨true, []⟩ ∧
    validateDataOpt et none = Except.ok ⟨true, []⟩ := by
  refine ⟨?_, rfl, rfl⟩
  unfold validateData
  split
  · exact ⟨⟨true, []⟩, rfl⟩
  · obtain ⟨errs, herrs⟩ := validateDataAux_total et rows 0 []
      (fun r hr => List.all_eq_true.mp h r hr)
    rw [herrs]
    exact ⟨_, rfl⟩

/-- Witness for claim C2: a client dataset with a string
RequestedTaskIDs validates without throwing, and the empty and absent
datasets return `validated = true` with no errors. -/
theorem validateData_total_amended_witness :
    (∃ res, validateData "clients"
        [[("ClientID", Value.str "C1"), ("RequestedTaskIDs", Value.str "T1,T2")]] =
      Except.ok res) ∧
    validateData "clients" [] = Except.ok ⟨true, []⟩ ∧
    validateDataOpt "clients" none = Except.ok ⟨true, []⟩ :=
  validateData_total_amended "clients"
    [[("ClientID", Value.str "C1"), ("RequestedTaskIDs", Value.str "T1,T2")]]
    (by with_unfolding_all rfl)

/-! ### Claim C5: the PriorityLevel range check -/

theorem countPriorityErrors (row : Row) (i : Nat)
    (hp : fieldPresent (getField row "PriorityLevel") = true) :
    countFieldErrors (clientPriorityErrors row i) i "PriorityLevel" =
      if priorityOutOfRange (getField row "PriorityLevel") then 1 else 0 := by
  unfold clientPriorityErrors priorityOutOfRange
  rw [if_pos hp]
  split
  · simp [countFieldErrors]
  · rename_i q hn
    by_cases hq : q < 1 ∨ q > 5
    · rw [if_pos hq]
      have hb : (decide (q < 1) || decide (q > 5)) = true := by
        rcases hq with h | h <;> simp [h]
      simp [countFieldErrors, hb]
    · rw [if_neg hq]
      push_neg at hq
      have hb : (decide (q < 1) || decide (q > 5)) = false := by
        simp only [Bool.or_eq_false_iff, decide_eq_false_iff_not]
        exact ⟨not_lt.mpr hq.1, not_lt.mpr hq.2⟩
      simp [countFieldErrors, hb]

/-- Claim C5 (amended): for a client row whose PriorityLevel is
present and non-empty, validation produces exactly one PriorityLevel
error iff `Number(value)` is NaN or lies outside `[1, 5]`; the code
performs no integrality check (a non-integer such as 2.5 inside the
range is accepted). -/
theorem validateClient_priorityLevel_flag (row : Row) (i : Nat)
    (errs : List ValidationError) (hok : validateClient row i = Except.ok errs)
    (hp : fieldPresent (getField row "PriorityLevel") = true) :
    countFieldErrors errs i "PriorityLevel" =
      if priorityOutOfRange (getField row "PriorityLevel") then 1 else 0 := by
  unfold validateClient at hok
  split at hok
  · exact absurd hok (by simp)
  · rename_i e2 hreq
    rw [Except.ok.injEq] at hok
    subst hok
    rw [countFieldErrors_append, countFieldErrors_append]
    have h2 : countFieldErrors e2 i "PriorityLevel" = 0 := by
      apply countFieldErrors_eq_zero
      intro e he
      have hf := (mem_clientRequestedErrors row i e2 hreq e he).2
      exact Or.inr (by simp [hf])
    have h3 : countFieldErrors (clientAttributesErrors row i) i "PriorityLevel" = 0 := by
      apply countFieldErrors_eq_zero
      intro e he
      have hf := (mem_clientAttributesErrors row i e he).2
      exact Or.inr (by simp [hf])
    rw [h2, h3, countPriorityErrors row i hp]
    simp

/-- Witness for claim C5: PriorityLevel "6" is present and out of
range, yielding exactly one PriorityLevel error. -/
theorem validateClient_priorityLevel_flag_witness :
    countFieldErrors
        [⟨0, "PriorityLevel", "PriorityLevel must be a number between 1 and 5"⟩]
        0 "PriorityLevel" =
      if priorityOutOfRange
          (getField [("ClientID", Value.str "C1"), ("PriorityLevel", Value.str "6")]
            "PriorityLevel") then 1 else 0 :=
  validateClient_priorityLevel_flag
    [("ClientID", Value.str "C1"), ("PriorityLevel", Value.str "6")] 0
    [⟨0, "PriorityLevel", "PriorityLevel must be a number between 1 and 5"⟩]
    (by with_unfolding_all rfl) (by with_unfolding_all rfl)

/-- Claim C5 (counterexample): the claim as stated — exactly one error
iff the value is non-numeric or not an integer in `[1, 5]` — fails on
the code: PriorityLevel "2.5" is numeric but not an integer, so the
claim demands an error, yet validation accepts the row. -/
theorem validateClient_priority_integer_cex :
    ¬ (∀ (row : Row) (i : Nat) (errs : List ValidationError),
        validateClient row i = Except.ok errs →
        fieldPresent (getField row "PriorityLevel") = true →
        (countFieldErrors errs i "PriorityLevel" = 1 ↔
          ¬ specPriorityNumericIntegerIn1To5 (getField row "PriorityLevel"))) := by
  intro hclaim
  have h := hclaim [("PriorityLevel", Value.str "2.5")] 0 []
    (by with_unfolding_all rfl) (by with_unfolding_all rfl)
  have hspec : ¬ specPriorityNumericIntegerIn1To5
      (getField [("PriorityLevel", Value.str "2.5")] "PriorityLevel") := by
    rintro ⟨q, hq, hden, -, -⟩
    have hq2 : toNumber (getField [("PriorityLevel", Value.str "2.5")] "PriorityLevel") =
        some (5 / 2 : Rat) := by with_unfolding_all rfl
    rw [hq2] at hq
    have hqq : (5 / 2 : Rat) = q := Option.some.inj hq
    rw [← hqq] at hden
    have hd2 : (5 / 2 : Rat).den = 2 := by with_unfolding_all rfl
    rw [hd2] at hden
    omega
  have h1 := h.mpr hspec
  simp [countFieldErrors] at h1

end DataAlchemist
